import Mathlib

/-!
Shallow embedding of src/main.py (NightOwl Chat): the connection registry
class ConnectionManager, the relay pipeline inside websocket_endpoint, and
the persistence helpers backed by the messages collection.  Outbound
websocket handles are identified by natural numbers; the Mongo collection
is modelled as the list of records inserted, in insertion order; every
send_text call is recorded in a delivery trace.
-/

/-- The pydantic model Message (main.py lines 32-35): sender identity,
text content, and the server-assigned timestamp string. -/
structure Message where
  client_id : String
  content : String
  timestamp : String
deriving DecidableEq

/-- The registry field active_connections : Dict[str, WebSocket]
(main.py line 45), as an insertion-ordered association list from client
identity to outbound handle, mirroring the CPython dict order. -/
abbrev Registry := List (String × Nat)

/-- Python dict assignment d[k] = v: update the existing entry for k in
place, keeping its position, or append a new entry at the end. -/
def dictInsert (k : String) (v : Nat) : Registry → Registry
  | [] => [(k, v)]
  | (k2, v2) :: rest =>
      if k2 = k then (k, v) :: rest else (k2, v2) :: dictInsert k v rest

/-- The guarded deletion in disconnect (main.py 51-53): remove the entry
for k when present, leave the list unchanged otherwise. -/
def dictRemove (k : String) : Registry → Registry
  | [] => []
  | (k2, v2) :: rest =>
      if k2 = k then rest else (k2, v2) :: dictRemove k rest

/-- Python dict lookup d.get(k): the handle registered for k, if any. -/
def dictGet (k : String) : Registry → Option Nat
  | [] => none
  | (k2, v) :: rest => if k2 = k then some v else dictGet k rest

/-- The identities currently present in the registry. -/
def keys (r : Registry) : List String := r.map (fun p => p.1)

/-- Observable state of the running server: the registry, the Mongo
messages collection in insertion order, the trace of records pushed by
broadcast as (handle, record) pairs, and the trace of raw strings pushed
by send_personal_message. -/
structure RelayState where
  registry : Registry
  history : List Message
  delivered : List (Nat × Message)
  personal : List (Nat × String)
deriving DecidableEq

namespace ConnectionManager

/-- connect (main.py 47-49): accept the socket, then
active_connections[client_id] = websocket. -/
def connect (client_id : String) (handle : Nat) (st : RelayState) : RelayState :=
  { st with registry := dictInsert client_id handle st.registry }

/-- disconnect (main.py 51-53): delete the entry when the identity is
present; silently do nothing when it is absent. -/
def disconnect (client_id : String) (st : RelayState) : RelayState :=
  { st with registry := dictRemove client_id st.registry }

/-- send_personal_message (main.py 55-58): look the identity up; when a
handle is registered, send the text to exactly that handle; when the
lookup misses, fall through without sending or raising. -/
def send_personal_message (message : String) (client_id : String)
    (st : RelayState) : RelayState :=
  match dictGet client_id st.registry with
  | some h => { st with personal := st.personal ++ [(h, message)] }
  | none => st

/-- broadcast (main.py 60-62) run to completion with no other task
mutating the registry: send to each registered handle in iteration order.
faulted h says whether send_text on handle h raises; a raise propagates
out of the loop, so later handles are skipped.  Returns the handles
actually delivered to and whether the loop finished without raising. -/
def broadcast (faulted : Nat → Bool) : Registry → List Nat × Bool
  | [] => ([], true)
  | (_, h) :: rest =>
      if faulted h then ([], false)
      else
        let r := broadcast faulted rest
        (h :: r.1, r.2)

/-- add_to_history (main.py 64-65): await messages_collection.insert_one.
persistFails says whether the insert raises; on a raise nothing is
stored and the exception propagates (result none). -/
def add_to_history (persistFails : Bool) (msg : Message)
    (st : RelayState) : Option RelayState :=
  if persistFails then none
  else some { st with history := st.history ++ [msg] }

end ConnectionManager

/-- Outcome of one iteration of the receive loop in websocket_endpoint:
normal completion, an exception from the Mongo insert, or an exception
from a send_text call during broadcast. -/
inductive SubmitOutcome
  | ok
  | persistRaised
  | sendRaised
deriving DecidableEq

/-- One iteration of the receive loop in websocket_endpoint (main.py
303-306) after data has arrived: build the Message with the server clock
reading ts (str(datetime.now())), await add_to_history — there is no
try/except around it, so a failed insert aborts the iteration before
broadcast runs — then broadcast the record to every registered handle. -/
def submit (persistFails : Bool) (faulted : Nat → Bool)
    (client_id data ts : String) (st : RelayState) : RelayState × SubmitOutcome :=
  let msg : Message := ⟨client_id, data, ts⟩
  match ConnectionManager.add_to_history persistFails msg st with
  | none => (st, SubmitOutcome.persistRaised)
  | some st1 =>
      let b := ConnectionManager.broadcast faulted st1.registry
      ({ st1 with delivered := st1.delivered ++ b.1.map (fun h => (h, msg)) },
       if b.2 then SubmitOutcome.ok else SubmitOutcome.sendRaised)

/-- A registry mutation another task can perform while the broadcasting
task is suspended at an await point: a registration (connect) or a
removal (disconnect). -/
inductive Mut
  | reg (client_id : String) (handle : Nat)
  | unreg (client_id : String)

/-- Apply one concurrent mutation to the shared registry. -/
def applyMut : Mut → Registry → Registry
  | Mut.reg c h, r => dictInsert c h r
  | Mut.unreg c, r => dictRemove c r

/-- Apply an optional concurrent mutation. -/
def applyOpt : Option Mut → Registry → Registry
  | none, r => r
  | some m, r => applyMut m r

/-- Result of a broadcast run over the live dict view: handles delivered
to, the registry when the loop ended, whether the dict iterator raised
RuntimeError, and whether a send_text call raised. -/
structure LiveResult where
  delivered : List Nat
  registry : Registry
  runtimeError : Bool
  sendError : Bool
deriving DecidableEq

/-- broadcast (main.py 60-62) iterating the live
active_connections.values() view under CPython semantics: the iterator
records the dict size at creation (size0) and each step first compares
the current size against it, raising RuntimeError on any mismatch before
yielding; schedule lists the mutation, if any, that other tasks perform
while this task is suspended at each send_text await.  fuel bounds the
recursion and is chosen large enough by broadcastLive. -/
def broadcastGo (faulted : Nat → Bool) (size0 : Nat) :
    Nat → Registry → Nat → List (Option Mut) → LiveResult
  | 0, reg, _, _ => ⟨[], reg, false, false⟩
  | fuel + 1, reg, idx, schedule =>
      if reg.length ≠ size0 then ⟨[], reg, true, false⟩
      else
        match reg[idx]? with
        | none => ⟨[], reg, false, false⟩
        | some e =>
            if faulted e.2 then ⟨[], reg, false, true⟩
            else
              let r := broadcastGo faulted size0 fuel
                (applyOpt (schedule.headD none) reg) (idx + 1) schedule.tail
              ⟨e.2 :: r.delivered, r.registry, r.runtimeError, r.sendError⟩

/-- A full run of broadcast over the live dict view, with enough fuel for
every entry and every scheduled mutation. -/
def broadcastLive (faulted : Nat → Bool) (reg : Registry)
    (schedule : List (Option Mut)) : LiveResult :=
  broadcastGo faulted reg.length (reg.length + 2 * schedule.length + 1) reg 0 schedule

/-- One event observed by the receive loop of websocket_endpoint: either
receive_text returns data (paired with the server clock reading used for
its timestamp), or the transport terminates — client close, network
error, protocol violation — which starlette surfaces as
WebSocketDisconnect raised out of receive_text. -/
inductive InEvent
  | text (data : String) (ts : String)
  | closed
deriving DecidableEq

/-- The receive loop plus exception handling of websocket_endpoint
(main.py 301-308).  Only WebSocketDisconnect is caught, and its handler
is the sole caller of disconnect; any other exception — a failed Mongo
insert, a failed send_text during broadcast — escapes the handler
without unregistering.  Returns the final state and whether the loop
terminated through the WebSocketDisconnect handler. -/
def runLoop (persistFails : Bool) (faulted : Nat → Bool) (client_id : String) :
    List InEvent → RelayState → RelayState × Bool
  | [], st => (st, false)
  | InEvent.closed :: _, st => (ConnectionManager.disconnect client_id st, true)
  | InEvent.text d ts :: rest, st =>
      let r := submit persistFails faulted client_id d ts st
      match r.2 with
      | SubmitOutcome.ok => runLoop persistFails faulted client_id rest r.1
      | _ => (r.1, false)

/-- get_message_history (main.py 67-69): the Mongo query
find().sort("timestamp", -1).limit(limit) — all stored records sorted by
the timestamp field, largest string first, truncated to limit. -/
def ConnectionManager.get_message_history (limit : Nat) (st : RelayState) : List Message :=
  (List.insertionSort (fun a b => b.timestamp ≤ a.timestamp) st.history).take limit

/-! ### Helper lemmas about the registry and the broadcast loop -/

theorem broadcast_no_fault (reg : Registry) :
    ConnectionManager.broadcast (fun _ => false) reg = (reg.map (fun p => p.2), true) := by
  induction reg with
  | nil => rfl
  | cons e rest ih => simp [ConnectionManager.broadcast, ih]

theorem broadcast_fault_split (faulted : Nat → Bool) (pre post : Registry)
    (e : String × Nat) (h1 : ∀ p ∈ pre, faulted p.2 = false) (h2 : faulted e.2 = true) :
    ConnectionManager.broadcast faulted (pre ++ e :: post)
      = (pre.map (fun p => p.2), false) := by
  induction pre with
  | nil => simp [ConnectionManager.broadcast, h2]
  | cons q rest ih =>
      have hq : faulted q.2 = false := h1 q (by simp)
      have hrest : ∀ p ∈ rest, faulted p.2 = false := fun p hp => h1 p (by simp [hp])
      simp [ConnectionManager.broadcast, hq, ih hrest]

theorem submit_registry (pf : Bool) (f : Nat → Bool) (c d ts : String) (st : RelayState) :
    (submit pf f c d ts st).1.registry = st.registry := by
  cases pf <;> simp [submit, ConnectionManager.add_to_history]

theorem mem_keys_dictInsert (x k : String) (v : Nat) (r : Registry) :
    x ∈ keys (dictInsert k v r) ↔ x = k ∨ x ∈ keys r := by
  induction r with
  | nil => simp [dictInsert, keys]
  | cons e rest ih =>
      by_cases he : e.1 = k
      · cases e with
        | mk k2 v2 =>
            simp only at he
            subst he
            simp [dictInsert, keys]
      · cases e with
        | mk k2 v2 =>
            simp only at he
            simp only [dictInsert, he, if_false, keys, List.map_cons, List.mem_cons]
            rw [show keys (dictInsert k v rest) = (dictInsert k v rest).map (fun p => p.1) from rfl] at ih
            rw [show keys rest = rest.map (fun p => p.1) from rfl] at ih
            tauto

theorem keys_dictInsert_nodup (k : String) (v : Nat) (r : Registry)
    (hr : (keys r).Nodup) : (keys (dictInsert k v r)).Nodup := by
  induction r with
  | nil => simp [dictInsert, keys]
  | cons e rest ih =>
      cases e with
      | mk k2 v2 =>
          simp only [keys, List.map_cons, List.nodup_cons] at hr
          by_cases he : k2 = k
          · subst he
            have hstep : dictInsert k2 v ((k2, v2) :: rest) = (k2, v) :: rest := by
              simp [dictInsert]
            rw [hstep]
            simpa [keys, List.nodup_cons] using hr
          · have hstep : dictInsert k v ((k2, v2) :: rest)
                = (k2, v2) :: dictInsert k v rest := by
              simp [dictInsert, he]
            rw [hstep]
            simp only [keys, List.map_cons, List.nodup_cons]
            refine ⟨?_, ih hr.2⟩
            intro hmem
            rcases (mem_keys_dictInsert k2 k v rest).1 hmem with h | h
            · exact he h
            · exact hr.1 h

theorem mem_keys_dictRemove (x k : String) (r : Registry) :
    x ∈ keys (dictRemove k r) → x ∈ keys r := by
  induction r with
  | nil => simp [dictRemove]
  | cons e rest ih =>
      cases e with
      | mk k2 v2 =>
          by_cases he : k2 = k
          · subst he
            have hstep : dictRemove k2 ((k2, v2) :: rest) = rest := by
              simp [dictRemove]
            rw [hstep]
            intro h
            exact List.mem_cons_of_mem _ h
          · have hstep : dictRemove k ((k2, v2) :: rest)
                = (k2, v2) :: dictRemove k rest := by
              simp [dictRemove, he]
            rw [hstep]
            simp only [keys, List.map_cons, List.mem_cons]
            rintro (h | h)
            · exact Or.inl h
            · exact Or.inr (ih h)

theorem keys_dictRemove_nodup (k : String) (r : Registry)
    (hr : (keys r).Nodup) : (keys (dictRemove k r)).Nodup := by
  induction r with
  | nil => simp [dictRemove, keys]
  | cons e rest ih =>
      cases e with
      | mk k2 v2 =>
          simp only [keys, List.map_cons, List.nodup_cons] at hr
          by_cases he : k2 = k
          · subst he
            have hstep : dictRemove k2 ((k2, v2) :: rest) = rest := by
              simp [dictRemove]
            rw [hstep]
            exact hr.2
          · have hstep : dictRemove k ((k2, v2) :: rest)
                = (k2, v2) :: dictRemove k rest := by
              simp [dictRemove, he]
            rw [hstep]
            simp only [keys, List.map_cons, List.nodup_cons]
            exact ⟨fun h => hr.1 (mem_keys_dictRemove k2 k rest h), ih hr.2⟩

theorem dictRemove_of_not_mem (k : String) (r : Registry)
    (h : k ∉ keys r) : dictRemove k r = r := by
  induction r with
  | nil => rfl
  | cons e rest ih =>
      cases e with
      | mk k2 v2 =>
          simp only [keys, List.map_cons, List.mem_cons] at h
          push_neg at h
          have hne : k2 ≠ k := fun he => h.1 he.symm
          have hstep : dictRemove k ((k2, v2) :: rest)
              = (k2, v2) :: dictRemove k rest := by
            simp [dictRemove, hne]
          rw [hstep, ih (by simpa [keys] using h.2)]

theorem not_mem_keys_dictRemove (k : String) (r : Registry)
    (hr : (keys r).Nodup) : k ∉ keys (dictRemove k r) := by
  induction r with
  | nil => simp [dictRemove, keys]
  | cons e rest ih =>
      cases e with
      | mk k2 v2 =>
          simp only [keys, List.map_cons, List.nodup_cons] at hr
          by_cases he : k2 = k
          · subst he
            have hstep : dictRemove k2 ((k2, v2) :: rest) = rest := by
              simp [dictRemove]
            rw [hstep]
            exact fun h => hr.1 h
          · have hstep : dictRemove k ((k2, v2) :: rest)
                = (k2, v2) :: dictRemove k rest := by
              simp [dictRemove, he]
            rw [hstep]
            simp only [keys, List.map_cons, List.mem_cons]
            push_neg
            exact ⟨fun h => he h.symm, ih hr.2⟩

theorem dictGet_insert_self (k : String) (v : Nat) (r : Registry) :
    dictGet k (dictInsert k v r) = some v := by
  induction r with
  | nil => simp [dictInsert, dictGet]
  | cons e rest ih =>
      cases e with
      | mk k2 v2 =>
          by_cases he : k2 = k
          · subst he
            simp [dictInsert, dictGet]
          · simp [dictInsert, dictGet, he, ih]

theorem mem_values_dictInsert (x : Nat) (k : String) (v : Nat) (r : Registry)
    (hr : (keys r).Nodup)
    (hx : x ∈ (dictInsert k v r).map (fun p => p.2)) :
    x = v ∨ ∃ p ∈ r, p.1 ≠ k ∧ p.2 = x := by
  induction r with
  | nil => simpa [dictInsert] using hx
  | cons e rest ih =>
      cases e with
      | mk k2 v2 =>
          simp only [keys, List.map_cons, List.nodup_cons] at hr
          by_cases he : k2 = k
          · subst he
            have hstep : dictInsert k2 v ((k2, v2) :: rest) = (k2, v) :: rest := by
              simp [dictInsert]
            rw [hstep] at hx
            simp only [List.map_cons, List.mem_cons] at hx
            rcases hx with h | h
            · exact Or.inl h
            · rcases List.mem_map.1 h with ⟨p, hp, hpx⟩
              refine Or.inr ⟨p, List.mem_cons_of_mem _ hp, ?_, hpx⟩
              intro hpk
              exact hr.1 (hpk ▸ List.mem_map_of_mem (fun q => q.1) hp)
          · have hstep : dictInsert k v ((k2, v2) :: rest)
                = (k2, v2) :: dictInsert k v rest := by
              simp [dictInsert, he]
            rw [hstep] at hx
            simp only [List.map_cons, List.mem_cons] at hx
            rcases hx with h | h
            · exact Or.inr ⟨(k2, v2), List.mem_cons_self _ _, he, h.symm⟩
            · rcases ih hr.2 h with h2 | ⟨p, hp, hpk, hpx⟩
              · exact Or.inl h2
              · exact Or.inr ⟨p, List.mem_cons_of_mem _ hp, hpk, hpx⟩

theorem mem_values_of_dictGet (k : String) (v : Nat) (r : Registry)
    (h : dictGet k r = some v) : v ∈ r.map (fun p => p.2) := by
  induction r with
  | nil => simp [dictGet] at h
  | cons e rest ih =>
      cases e with
      | mk k2 v2 =>
          by_cases he : k2 = k
          · subst he
            have hstep : dictGet k2 ((k2, v2) :: rest) = some v2 := by
              simp [dictGet]
            rw [hstep] at h
            injection h with h
            simp [h]
          · simp only [dictGet, if_neg he] at h
            simp [ih h]

theorem broadcastGo_no_sched (fuel : Nat) :
    ∀ (reg : Registry) (idx : Nat), reg.length ≤ idx + fuel →
    broadcastGo (fun _ => false) reg.length fuel reg idx []
      = ⟨(reg.drop idx).map (fun p => p.2), reg, false, false⟩ := by
  induction fuel with
  | zero =>
      intro reg idx hle
      simp only [Nat.add_zero] at hle
      simp [broadcastGo, List.drop_eq_nil_of_le hle]
  | succ n ih =>
      intro reg idx hle
      by_cases hidx : idx < reg.length
      · have hget : reg[idx]? = some reg[idx] := List.getElem?_eq_getElem hidx
        have hdrop : reg.drop idx = reg[idx] :: reg.drop (idx + 1) :=
          List.drop_eq_getElem_cons hidx
        have hrec := ih reg (idx + 1) (by omega)
        simp only [broadcastGo, ne_eq, not_true_eq_false, if_false, hget,
          applyOpt, List.headD_nil, List.tail_nil, hrec, hdrop, List.map_cons]
        simp
      · have hget : reg[idx]? = none := List.getElem?_eq_none (by omega)
        have hdrop : reg.drop idx = [] := List.drop_eq_nil_of_le (by omega)
        simp [broadcastGo, hget, hdrop]

theorem broadcastLive_no_sched (reg : Registry) :
    broadcastLive (fun _ => false) reg []
      = ⟨reg.map (fun p => p.2), reg, false, false⟩ := by
  have h := broadcastGo_no_sched (reg.length + 2 * 0 + 1) reg 0 (by omega)
  simpa [broadcastLive] using h

theorem runLoop_texts (c : String) (texts : List (String × String))
    (evs : List InEvent) (st : RelayState) :
    ∃ st2, runLoop false (fun _ => false) c
        (texts.map (fun p => InEvent.text p.1 p.2) ++ evs) st
      = runLoop false (fun _ => false) c evs st2
    ∧ st2.registry = st.registry := by
  induction texts generalizing st with
  | nil => exact ⟨st, rfl, rfl⟩
  | cons t rest ih =>
      have hok : (submit false (fun _ => false) c t.1 t.2 st).2 = SubmitOutcome.ok := by
        simp [submit, ConnectionManager.add_to_history, broadcast_no_fault]
      rcases ih ((submit false (fun _ => false) c t.1 t.2 st).1) with ⟨st2, heq, hreg⟩
      refine ⟨st2, ?_, ?_⟩
      · simp only [List.map_cons, List.cons_append, runLoop]
        rw [hok]
        exact heq
      · rw [hreg, submit_registry]

/-! ### Claim C1 -/

/-- Counterexample to claim C1 as stated: with identities ann and bo both
registered and a failing Mongo insert, the submit iteration does not
complete normally and nothing at all is broadcast — the persistence
failure does block and cancel the broadcast, because websocket_endpoint
has no exception handling around add_to_history. -/
theorem persist_failure_blocks_broadcast_cex :
    (submit true (fun _ => false) "ann" "hello" "t0"
        ⟨[("ann", 0), ("bo", 1)], [], [], []⟩).2 ≠ SubmitOutcome.ok
    ∧ (submit true (fun _ => false) "ann" "hello" "t0"
        ⟨[("ann", 0), ("bo", 1)], [], [], []⟩).1.delivered = [] := by decide

/-- Claim C1 (amended): when the Durable Log append raises, the exception
propagates uncaught — the submit iteration ends with the persistence
error, the state is left exactly as it was (no record stored, no handle
delivered to), and the receive loop terminates abnormally without
reaching the broadcast, since only WebSocketDisconnect is caught. -/
theorem persist_failure_propagates (f : Nat → Bool) (c d ts : String)
    (st : RelayState) (rest : List InEvent) :
    (submit true f c d ts st).2 = SubmitOutcome.persistRaised
    ∧ (submit true f c d ts st).1 = st
    ∧ runLoop true f c (InEvent.text d ts :: rest) st = (st, false) := by
  refine ⟨rfl, rfl, ?_⟩
  simp [runLoop, submit, ConnectionManager.add_to_history]

/-! ### Claim C2 -/

/-- Counterexample to claim C2 as stated: handle 0 of ann is faulted, and
the healthy recipient bo (handle 1) does not receive the message — the
per-entry failure is not caught and aborts delivery to the remaining
entries. -/
theorem delivery_failure_aborts_rest_cex :
    ¬ ((1 : Nat) ∈ (ConnectionManager.broadcast (fun h => h == 0)
        [("ann", 0), ("bo", 1)]).1) := by decide

/-- Claim C2 (amended): a delivery failure on one outbound handle
propagates out of broadcast, aborting delivery to every entry after the
failed one in iteration order; the entries before it have already been
delivered to, and the failed entry is indeed not removed from the
registry (the registry is untouched by submit). -/
theorem delivery_failure_propagates (faulted : Nat → Bool) (pre post : Registry)
    (e : String × Nat) (c d ts : String) (hist : List Message)
    (dl : List (Nat × Message)) (pl : List (Nat × String))
    (h1 : ∀ p ∈ pre, faulted p.2 = false) (h2 : faulted e.2 = true) :
    ConnectionManager.broadcast faulted (pre ++ e :: post)
        = (pre.map (fun p => p.2), false)
    ∧ (submit false faulted c d ts ⟨pre ++ e :: post, hist, dl, pl⟩).1.registry
        = pre ++ e :: post
    ∧ (submit false faulted c d ts ⟨pre ++ e :: post, hist, dl, pl⟩).2
        = SubmitOutcome.sendRaised := by
  refine ⟨broadcast_fault_split faulted pre post e h1 h2,
    submit_registry false faulted c d ts _, ?_⟩
  simp [submit, ConnectionManager.add_to_history,
    broadcast_fault_split faulted pre post e h1 h2]

/-- Witness for the amended C2 theorem at a concrete registry. -/
theorem delivery_failure_propagates_witness :
    ConnectionManager.broadcast (fun h => h == 5)
        ([("a", 1), ("b", 2)] ++ ("x", 5) :: [("c", 3)]) = ([1, 2], false)
    ∧ (submit false (fun h => h == 5) "ann" "hi" "t0"
        ⟨[("a", 1), ("b", 2)] ++ ("x", 5) :: [("c", 3)], [], [], []⟩).1.registry
        = [("a", 1), ("b", 2)] ++ ("x", 5) :: [("c", 3)]
    ∧ (submit false (fun h => h == 5) "ann" "hi" "t0"
        ⟨[("a", 1), ("b", 2)] ++ ("x", 5) :: [("c", 3)], [], [], []⟩).2
        = SubmitOutcome.sendRaised :=
  delivery_failure_propagates (fun h => h == 5) [("a", 1), ("b", 2)] [("c", 3)]
    ("x", 5) "ann" "hi" "t0" [] [] [] (by decide) (by decide)

/-! ### Claim C3 -/

/-- Counterexample to claim C3 as stated: with ann and bo registered at
submission time, a registration of cara interleaved after the first
delivery makes the live dict iterator raise RuntimeError, so bo — a
member of the submission-time snapshot — never receives the message: the
recipient set is not the submission-time snapshot, and the loop is not
iterating an immutable copy (an immutable copy could not observe the
concurrent insertion). -/
theorem join_during_broadcast_cex :
    (broadcastLive (fun _ => false) [("ann", 0), ("bo", 1)]
        [some (Mut.reg "cara" 2)]).runtimeError = true
    ∧ ¬ ((1 : Nat) ∈ (broadcastLive (fun _ => false) [("ann", 0), ("bo", 1)]
        [some (Mut.reg "cara" 2)]).delivered)
    ∧ ¬ ((2 : Nat) ∈ (broadcastLive (fun _ => false) [("ann", 0), ("bo", 1)]
        [some (Mut.reg "cara" 2)]).delivered) := by decide

/-- Claim C3 (amended): broadcast iterates the live connection map, not a
point-in-time copy.  When no registration or removal interleaves, the
recipients are exactly the registry membership at submission time (and a
connection joining later never receives the message).  When a new
identity registers mid-broadcast, the size check of the live dict
iterator raises RuntimeError: the new connection never receives the
message, but snapshot members not yet served are also skipped. -/
theorem broadcast_iterates_live_map (reg : Registry) (i1 i2 i3 : String)
    (n1 n2 n3 : Nat) (ha : i3 ≠ i1) (hb : i3 ≠ i2) :
    broadcastLive (fun _ => false) reg []
        = ⟨reg.map (fun p => p.2), reg, false, false⟩
    ∧ broadcastLive (fun _ => false) [(i1, n1), (i2, n2)] [some (Mut.reg i3 n3)]
        = ⟨[n1], [(i1, n1), (i2, n2), (i3, n3)], true, false⟩ := by
  refine ⟨broadcastLive_no_sched reg, ?_⟩
  have ha2 : i1 ≠ i3 := fun h => ha h.symm
  have hb2 : i2 ≠ i3 := fun h => hb h.symm
  simp [broadcastLive, broadcastGo, applyOpt, applyMut, dictInsert, ha2, hb2]

/-- Witness for the amended C3 theorem at concrete identities. -/
theorem broadcast_iterates_live_map_witness :
    broadcastLive (fun _ => false) [("x", 9)] []
        = ⟨[9], [("x", 9)], false, false⟩
    ∧ broadcastLive (fun _ => false) [("ann", 10), ("bo", 11)]
        [some (Mut.reg "cara" 12)]
        = ⟨[10], [("ann", 10), ("bo", 11), ("cara", 12)], true, false⟩ :=
  broadcast_iterates_live_map [("x", 9)] "ann" "bo" "cara" 10 11 12
    (by decide) (by decide)

/-! ### Claim C4 -/

/-- Counterexample to claim C4 as stated: ann and bo are registered; ann
is unregistered while the broadcast is suspended after its first
delivery; the live dict iterator then raises RuntimeError and bo, still
registered, does not receive the message. -/
theorem unregister_during_broadcast_cex :
    (broadcastLive (fun _ => false) [("ann", 0), ("bo", 1)]
        [some (Mut.unreg "ann")]).runtimeError = true
    ∧ ¬ ((1 : Nat) ∈ (broadcastLive (fun _ => false) [("ann", 0), ("bo", 1)]
        [some (Mut.unreg "ann")]).delivered) := by decide

/-- Claim C4 (amended): unregistering an identity while a broadcast over
the registry is in flight makes the next step of the live dict iterator
raise RuntimeError (dictionary changed size during iteration), which
aborts the broadcast and prevents delivery of that message to the
remaining still-registered identities; entries served before the removal
keep their delivery. -/
theorem unregister_mid_broadcast_raises (i1 i2 i3 : String) (n1 n2 n3 : Nat) :
    broadcastLive (fun _ => false) [(i1, n1), (i2, n2), (i3, n3)]
        [some (Mut.unreg i1)]
      = ⟨[n1], [(i2, n2), (i3, n3)], true, false⟩ := by
  simp [broadcastLive, broadcastGo, applyOpt, applyMut, dictRemove]

/-! ### Claim C5 -/

/-- Claim C5 (confirmed): both registry mutators preserve the
at-most-one-entry-per-identity invariant; registering an identity already
present replaces its entry (the operation is total, so nothing is
raised), the lookup afterwards yields the new handle, and a subsequent
fault-free broadcast delivers to the new handle and not to the displaced
one. -/
theorem connect_last_writer_wins (c : String) (nNew nOld : Nat)
    (st : RelayState) (hnd : (keys st.registry).Nodup)
    (_hold : dictGet c st.registry = some nOld)
    (hfresh : ∀ p ∈ st.registry, p.1 ≠ c → p.2 ≠ nOld)
    (hne : nOld ≠ nNew) :
    (∀ (x : String) (v : Nat),
        (keys (ConnectionManager.connect x v st).registry).Nodup)
    ∧ (∀ (x : String),
        (keys (ConnectionManager.disconnect x st).registry).Nodup)
    ∧ dictGet c (ConnectionManager.connect c nNew st).registry = some nNew
    ∧ nNew ∈ (ConnectionManager.broadcast (fun _ => false)
        (ConnectionManager.connect c nNew st).registry).1
    ∧ nOld ∉ (ConnectionManager.broadcast (fun _ => false)
        (ConnectionManager.connect c nNew st).registry).1 := by
  have hget : dictGet c (dictInsert c nNew st.registry) = some nNew :=
    dictGet_insert_self c nNew st.registry
  refine ⟨fun x v => keys_dictInsert_nodup x v st.registry hnd,
    fun x => keys_dictRemove_nodup x st.registry hnd, hget, ?_, ?_⟩
  · rw [show (ConnectionManager.connect c nNew st).registry
        = dictInsert c nNew st.registry from rfl, broadcast_no_fault]
    exact mem_values_of_dictGet c nNew _ hget
  · rw [show (ConnectionManager.connect c nNew st).registry
        = dictInsert c nNew st.registry from rfl, broadcast_no_fault]
    intro hmem
    rcases mem_values_dictInsert nOld c nNew st.registry hnd hmem with h | ⟨p, hp, hpk, hpx⟩
    · exact hne h
    · exact hfresh p hp hpk hpx

/-- Witness for the C5 theorem: ann reconnects with handle 2 while her
old handle 0 is registered next to bo. -/
theorem connect_last_writer_wins_witness :
    (∀ (x : String) (v : Nat),
        (keys (ConnectionManager.connect x v
          ⟨[("ann", 0), ("bo", 1)], [], [], []⟩).registry).Nodup)
    ∧ (∀ (x : String),
        (keys (ConnectionManager.disconnect x
          ⟨[("ann", 0), ("bo", 1)], [], [], []⟩).registry).Nodup)
    ∧ dictGet "ann" (ConnectionManager.connect "ann" 2
        ⟨[("ann", 0), ("bo", 1)], [], [], []⟩).registry = some 2
    ∧ 2 ∈ (ConnectionManager.broadcast (fun _ => false)
        (ConnectionManager.connect "ann" 2
          ⟨[("ann", 0), ("bo", 1)], [], [], []⟩).registry).1
    ∧ 0 ∉ (ConnectionManager.broadcast (fun _ => false)
        (ConnectionManager.connect "ann" 2
          ⟨[("ann", 0), ("bo", 1)], [], [], []⟩).registry).1 :=
  connect_last_writer_wins "ann" 2 0 ⟨[("ann", 0), ("bo", 1)], [], [], []⟩
    (by decide) (by decide) (by decide) (by decide)

/-! ### Claim C6 -/

/-- Claim C6 (confirmed): one inbound text data from client c produces
exactly one new record in the Durable Log, with client_id equal to the
identity of the connection, content equal to the inbound text unchanged,
and timestamp equal to the server clock reading ts taken at submission
time (the client supplies only data); the record broadcast to every
registered recipient is that same record, and under no faults the
iteration completes normally. -/
theorem submit_record_correct (c d ts : String) (st : RelayState) :
    (submit false (fun _ => false) c d ts st).1.history
        = st.history ++ [⟨c, d, ts⟩]
    ∧ (submit false (fun _ => false) c d ts st).1.delivered
        = st.delivered ++ st.registry.map (fun e => (e.2, (⟨c, d, ts⟩ : Message)))
    ∧ (submit false (fun _ => false) c d ts st).2 = SubmitOutcome.ok := by
  refine ⟨?_, ?_, ?_⟩ <;>
    simp [submit, ConnectionManager.add_to_history, broadcast_no_fault,
      List.map_map, Function.comp]

/-! ### Claim C7 -/

/-- Claim C7 (confirmed): a session whose transport terminates — the
receive call raises WebSocketDisconnect — unregisters exactly its own
identity and ends its loop through the except handler, whatever texts it
relayed before; and this handler is the only removal path: submit never
changes the registry, and neither does send_personal_message. -/
theorem session_termination_unregisters (c : String)
    (texts : List (String × String)) (rest : List InEvent) (st : RelayState) :
    ((runLoop false (fun _ => false) c
        (texts.map (fun p => InEvent.text p.1 p.2) ++ InEvent.closed :: rest)
        st).1.registry = dictRemove c st.registry)
    ∧ ((runLoop false (fun _ => false) c
        (texts.map (fun p => InEvent.text p.1 p.2) ++ InEvent.closed :: rest)
        st).2 = true)
    ∧ (∀ (pf : Bool) (f : Nat → Bool) (c2 d ts : String) (st2 : RelayState),
        (submit pf f c2 d ts st2).1.registry = st2.registry)
    ∧ (∀ (m c2 : String) (st2 : RelayState),
        (ConnectionManager.send_personal_message m c2 st2).registry
          = st2.registry) := by
  rcases runLoop_texts c texts (InEvent.closed :: rest) st with ⟨st2, heq, hreg⟩
  refine ⟨?_, ?_, fun pf f c2 d ts st2 => submit_registry pf f c2 d ts st2, ?_⟩
  · rw [heq]
    show (ConnectionManager.disconnect c st2).registry = dictRemove c st.registry
    rw [show (ConnectionManager.disconnect c st2).registry
        = dictRemove c st2.registry from rfl, hreg]
  · rw [heq]
    rfl
  · intro m c2 st2
    cases h : dictGet c2 st2.registry <;>
      simp [ConnectionManager.send_personal_message, h]

/-! ### Claim C8 -/

/-- Claim C8 (confirmed): disconnect removes the entry when present and
is a silent no-op when the identity is absent (the function is total, so
no call raises); a second removal of the same identity leaves the state
exactly as a single removal did, and after a removal the identity is no
longer registered. -/
theorem disconnect_noop_idempotent (c : String) (st : RelayState)
    (hnd : (keys st.registry).Nodup) :
    (c ∉ keys st.registry → ConnectionManager.disconnect c st = st)
    ∧ ConnectionManager.disconnect c (ConnectionManager.disconnect c st)
        = ConnectionManager.disconnect c st
    ∧ c ∉ keys (ConnectionManager.disconnect c st).registry := by
  refine ⟨?_, ?_, not_mem_keys_dictRemove c st.registry hnd⟩
  · intro h
    show ({ st with registry := dictRemove c st.registry } : RelayState) = st
    rw [dictRemove_of_not_mem c st.registry h]
  · have h2 := dictRemove_of_not_mem c (dictRemove c st.registry)
      (not_mem_keys_dictRemove c st.registry hnd)
    simp [ConnectionManager.disconnect, h2]

/-- Witness for the C8 theorem at a concrete registry. -/
theorem disconnect_noop_idempotent_witness :
    ("ann" ∉ keys ([("ann", 0), ("bo", 1)] : Registry)
        → ConnectionManager.disconnect "ann" ⟨[("ann", 0), ("bo", 1)], [], [], []⟩
          = ⟨[("ann", 0), ("bo", 1)], [], [], []⟩)
    ∧ ConnectionManager.disconnect "ann"
        (ConnectionManager.disconnect "ann" ⟨[("ann", 0), ("bo", 1)], [], [], []⟩)
        = ConnectionManager.disconnect "ann" ⟨[("ann", 0), ("bo", 1)], [], [], []⟩
    ∧ "ann" ∉ keys (ConnectionManager.disconnect "ann"
        ⟨[("ann", 0), ("bo", 1)], [], [], []⟩).registry :=
  disconnect_noop_idempotent "ann" ⟨[("ann", 0), ("bo", 1)], [], [], []⟩ (by decide)

/-! ### Claim C9 -/

/-- Claim C9 (confirmed): the history read returns at most limit records,
pairwise ordered newest first by the timestamp field (each record is
followed only by records with a timestamp no larger than its own); the
definition of submit makes no reference to this read, so it is not on the
live broadcast path. -/
theorem get_message_history_spec (limit : Nat) (st : RelayState) :
    (ConnectionManager.get_message_history limit st).length ≤ limit
    ∧ (ConnectionManager.get_message_history limit st).Pairwise
        (fun a b => b.timestamp ≤ a.timestamp) := by
  constructor
  · simp [ConnectionManager.get_message_history]
  · haveI ht : IsTotal Message (fun a b => b.timestamp ≤ a.timestamp) :=
      ⟨fun a b => le_total b.timestamp a.timestamp⟩
    haveI htr : IsTrans Message (fun a b => b.timestamp ≤ a.timestamp) :=
      ⟨fun _ _ _ hab hbc => le_trans hbc hab⟩
    have hs := List.sorted_insertionSort
      (fun a b : Message => b.timestamp ≤ a.timestamp) st.history
    exact List.Pairwise.sublist (List.take_sublist limit _) hs

/-! ### Claim C10 -/

/-- Claim C10 (confirmed): direct delivery to an absent identity is a
silent no-op — nothing is sent, nothing is raised (the function is
total), and the whole state, registry included, is unchanged; when the
identity is registered, exactly one text is pushed to exactly that
handle and everything else, registry included, is unchanged. -/
theorem send_personal_message_spec (m c : String) (st : RelayState) :
    (dictGet c st.registry = none
        → ConnectionManager.send_personal_message m c st = st)
    ∧ (∀ h : Nat, dictGet c st.registry = some h
        → ConnectionManager.send_personal_message m c st
          = { st with personal := st.personal ++ [(h, m)] }) := by
  constructor
  · intro h
    simp [ConnectionManager.send_personal_message, h]
  · intro hdl h
    simp [ConnectionManager.send_personal_message, h]

/-- Witness for the C10 theorem: zed is absent (no-op), ann is present
(one push to handle 7). -/
theorem send_personal_message_spec_witness :
    ConnectionManager.send_personal_message "hi" "zed"
        ⟨[("ann", 7)], [], [], []⟩ = ⟨[("ann", 7)], [], [], []⟩
    ∧ ConnectionManager.send_personal_message "hi" "ann"
        ⟨[("ann", 7)], [], [], []⟩ = ⟨[("ann", 7)], [], [], [(7, "hi")]⟩ :=
  ⟨(send_personal_message_spec "hi" "zed" ⟨[("ann", 7)], [], [], []⟩).1 (by decide),
   (send_personal_message_spec "hi" "ann" ⟨[("ann", 7)], [], [], []⟩).2 7 (by decide)⟩
